import Mathlib

/-!
# Verification of the ransomware.agent scraping agent core

A shallow embedding, in Lean 4, of the core of the `kk4w4i/ransomware.agent`
repository: the text chunker and JSON-repair step of
`src/actions/scrape_and_store.py`, the similarity-deduplicating store of
`src/managers/vector_store_manager.py`, the action dispatcher of
`src/managers/browser_manager.py`, the `wait` action of
`src/actions/wait.py`, and the agent loop of `src/agent.py`.

Python strings are modelled as `List Char`; Python exceptions are modelled
with `Except (List Char)`; external collaborators (the LLM, the browser
driver, MongoDB, `json.loads`, `ast.literal_eval`) are modelled as oracle
fields of explicit environment structures, so every definition here is
executable and every theorem quantifies over the oracle behaviour.
-/

namespace RansomAgent

/-- A Python error is modelled as its message string. -/
abbrev PyErr := List Char

/-! ## Chunker (`src/actions/scrape_and_store.py`, `chunk_text`, lines 10-19)

```python
def chunk_text(text, size):
    chunks = []
    step = int(size * 0.9)
    for start in range(0, len(text), step):
        chunk = text[start:start + size]
        if chunk:
            chunks.append(chunk)
        if start + size >= len(text):
            break
    return chunks
```

`int(size * 0.9)` is embedded as the exact rational truncation `9 * size / 10`
(natural floor division), the idealisation of the float product for the
machine-representable sizes the program uses.  `range(0, n, 0)` raises
`ValueError`, which the wrapper `chunk_text` reproduces; for a positive step
the `for`/`break` loop is the structural recursion `chunkFrom`. -/

/-- One pass of the Python `for start in range(0, len(text), step)` loop of
`chunk_text`, starting at offset `start`.  `text[start:start+size]` is
`(text.drop start).take size`; the `if chunk:` guard and the
`if start + size >= len(text): break` check are kept exactly as written. -/
def chunkFrom (text : List Char) (size step start : Nat) : List (List Char) :=
  if h : start < text.length ∧ 0 < step then
    let chunk := (text.drop start).take size
    let rest :=
      if text.length ≤ start + size then []
      else chunkFrom text size step (start + step)
    if chunk.isEmpty then rest else chunk :: rest
  else []
termination_by text.length - start
decreasing_by
  simp only [not_le] at *
  omega

/-- Embedding of `chunk_text(text, size)`: computes `step = int(size * 0.9)`;
a zero step makes `range` raise `ValueError`, otherwise the loop of
`chunkFrom` runs. -/
def chunk_text (text : List Char) (size : Nat) : Except PyErr (List (List Char)) :=
  let step := 9 * size / 10
  if step = 0 then .error ("ValueError: range() arg 3 must not be zero".toList)
  else .ok (chunkFrom text size step 0)

/-- Python whitespace for `str.strip()`. -/
def isPySpace (c : Char) : Bool :=
  c = ' ' ∨ c = '\t' ∨ c = '\n' ∨ c = '\x0d' ∨ c = '\x0b' ∨ c = '\x0c'

/-- Python `s.strip()`. -/
def pyStrip (s : List Char) : List Char :=
  ((s.dropWhile isPySpace).reverse.dropWhile isPySpace).reverse

/-- Python `s.rfind(c)`: index of the last occurrence, `none` for -1. -/
def rfindIdx (c : Char) : List Char → Option Nat
  | [] => none
  | a :: rest =>
    match rfindIdx c rest with
    | some i => some (i + 1)
    | none => if a = c then some 0 else none

/-- Embedding of `fix_partial_json` (`src/actions/scrape_and_store.py`,
lines 21-37):

```python
last_brace = s.rfind('\x7d')
if last_brace == -1:
    return None
repaired = s[:last_brace+1]
if repaired.strip().startswith('\x7b'):
    repaired = '[' + repaired + ']'
elif repaired.count('[') and not repaired.strip().endswith(']'):
    repaired += ']'
return repaired
``` -/
def fix_partial_json (s : List Char) : Option (List Char) :=
  match rfindIdx '}' s with
  | none => none
  | some last_brace =>
    let repaired := s.take (last_brace + 1)
    if (pyStrip repaired).head? = some '{' then
      some ('[' :: (repaired ++ [']']))
    else if repaired.count '[' ≠ 0 ∧ (pyStrip repaired).getLast? ≠ some ']' then
      some (repaired ++ [']'])
    else some repaired

/-- Python values produced by `json.loads`. -/
inductive PyJson where
  | jdict (fields : List (List Char × PyJson))
  | jlist (elems : List PyJson)
  | jstr (s : List Char)
  | jnum (n : Int)
  | jbool (b : Bool)
  | jnull

/-- Parse/repair step of `call_llm` (`src/actions/scrape_and_store.py`,
lines 58-71), with `json.loads` as an oracle: strict parse, a dict normalised
to a one-element list; on failure repair via `fix_partial_json` and re-parse
(a `None` repair makes `json.loads(None)` raise `TypeError`, caught by the
same handler); if that also fails, return the empty list. -/
def parse_entries (loads : List Char → Except PyErr PyJson) (result : List Char) :
    PyJson :=
  match loads result with
  | .ok parsed =>
    match parsed with
    | .jdict d => .jlist [.jdict d]
    | v => v
  | .error _ =>
    match fix_partial_json result with
    | none => .jlist []
    | some repaired =>
      match loads repaired with
      | .ok parsed => parsed
      | .error _ => .jlist []

/-- An extracted entry: a Python dict with string keys and string values,
modelled as an association list (the vector store reads and writes only
string-valued fields). -/
abbrev Entry := List (List Char × List Char)

/-- Python `entry.get(key, '')`. -/
def pyGet (entry : Entry) (key : List Char) : List Char :=
  match entry.find? (fun kv => kv.1 == key) with
  | some kv => kv.2
  | none => []

/-- Python `key in entry`. -/
def pyContains (entry : Entry) (key : List Char) : Bool :=
  entry.any (fun kv => kv.1 == key)

/-- Python `entry[key] = v` for a key already present. -/
def pySet (entry : Entry) (key : List Char) (v : List Char) : Entry :=
  entry.map (fun kv => if kv.1 == key then (kv.1, v) else kv)

/-- Python `s.lower()`. -/
def toLowerStr (s : List Char) : List Char := s.map Char.toLower

/-- Embedding of `VectorStoreManager.normalize_entry`
(`src/managers/vector_store_manager.py`, lines 120-123): strip and lowercase
a present, truthy `victimCompany` field. -/
def normalize_entry (entry : Entry) : Entry :=
  if pyContains entry ("victimCompany".toList)
      ∧ pyGet entry ("victimCompany".toList) ≠ [] then
    pySet entry ("victimCompany".toList)
      (toLowerStr (pyStrip (pyGet entry ("victimCompany".toList))))
  else entry

/-- Embedding of `VectorStoreManager.create_searchable_text` (lines 74-82):
space-join the stripped truthy salient fields. -/
def create_searchable_text (entry : Entry) : List Char :=
  List.intercalate [' ']
    (([pyGet entry ("victimCompany".toList),
       pyGet entry ("industry".toList),
       pyGet entry ("countryOfCompany".toList),
       pyGet entry ("ransomwareGroup".toList),
       pyGet entry ("description".toList)].filter (fun f => f ≠ [])).map pyStrip)

abbrev EmbVec := List ℚ

/-- A document returned by the `$vectorSearch`/`$project` pipeline: its
projected fields together with its `vectorSearchScore`. -/
structure Candidate where
  fields : Entry
  score : ℚ
deriving DecidableEq

/-- A document as inserted into the victims collection: the entry fields,
and the `embedding`/`searchable_text` keys when present (`created_at`, a
wall-clock timestamp, is outside the model). -/
structure Doc where
  fields : Entry
  embedding : Option EmbVec
  searchable_text : Option (List Char)
deriving DecidableEq

/-- External collaborators of `VectorStoreManager`: the local
sentence-transformer embedding, the MongoDB `$vectorSearch` stage (returning
scored candidates ordered by decreasing score), and `insert_one`. -/
structure StoreEnv where
  embed : List Char → Except PyErr EmbVec
  search : EmbVec → Except PyErr (List Candidate)
  insert : Doc → Except PyErr Nat

/-- Embedding of `VectorStoreManager.vector_search` (lines 84-118). The
`$vectorSearch` stage is the external oracle capped at the stage's `limit`
parameter; the `$match` stage the code appends keeps `score ≥ threshold`
(the `$gte` operator); `to_list(length=limit)` truncates to `limit`; any
exception from `aggregate` is caught and yields the empty list. -/
def vector_search (env : StoreEnv) (query_vector : EmbVec)
    (limit : Nat) (threshold : ℚ) : List Candidate :=
  match env.search query_vector with
  | .error _ => []
  | .ok docs => ((docs.take limit).filter (fun c => threshold ≤ c.score)).take limit

/-- Embedding of `VectorStoreManager.find_similar_entries` (lines 125-132):
empty searchable text short-circuits to no candidates; an embedding failure
propagates. -/
def find_similar_entries (env : StoreEnv) (entry : Entry)
    (threshold : ℚ) (limit : Nat) : Except PyErr (List Candidate) :=
  if pyStrip (create_searchable_text entry) = [] then .ok []
  else
    match env.embed (create_searchable_text entry) with
    | .error e => .error e
    | .ok emb => .ok (vector_search env emb limit threshold)

/-- The `entry` value of a store result: an existing similar document, or
the freshly created one (embedding popped before being returned, id from the
insert). -/
inductive StoredEntry where
  | found (c : Candidate)
  | created (fields : Entry) (searchable_text : Option (List Char)) (id : Nat)
deriving DecidableEq

/-- Return value of `store_entry_with_embedding`:
`{'stored', 'entry', 'similarity_score'}`. -/
structure StoreResult where
  stored : Bool
  entry : StoredEntry
  similarity_score : Option ℚ
deriving DecidableEq

/-- The except-handler of `store_entry_with_embedding` (lines 154-159):
insert the raw entry as-is (no embedding, no searchable text) and return it
as stored; a failure of this insert propagates. -/
def store_fallback (env : StoreEnv) (entry1 : Entry) :
    Except PyErr StoreResult × List Doc :=
  match env.insert ⟨entry1, none, none⟩ with
  | .ok id => (.ok ⟨true, .created entry1 none id, none⟩, [⟨entry1, none, none⟩])
  | .error e => (.error e, [])

/-- Embedding of `VectorStoreManager.store_entry_with_embedding`
(lines 134-159). Returns the Python result (or the propagated exception)
paired with the list of documents successfully inserted into the
collection. -/
def store_entry_with_embedding (env : StoreEnv) (entry : Entry)
    (similarity_threshold : ℚ) : Except PyErr StoreResult × List Doc :=
  match find_similar_entries env (normalize_entry entry) similarity_threshold 3 with
  | .error _ => store_fallback env (normalize_entry entry)
  | .ok (top :: _) => (.ok ⟨false, .found top, some top.score⟩, [])
  | .ok [] =>
    match env.embed (create_searchable_text (normalize_entry entry)) with
    | .error _ => store_fallback env (normalize_entry entry)
    | .ok emb =>
      match env.insert ⟨normalize_entry entry, some emb,
          some (create_searchable_text (normalize_entry entry))⟩ with
      | .error _ => store_fallback env (normalize_entry entry)
      | .ok id =>
          (.ok ⟨true, .created (normalize_entry entry)
              (some (create_searchable_text (normalize_entry entry))) id, none⟩,
           [⟨normalize_entry entry, some emb,
             some (create_searchable_text (normalize_entry entry))⟩])

/-- A params value in an action descriptor. -/
inductive PyParam where
  | pint (n : Int)
  | pstr (s : List Char)
deriving DecidableEq

/-- An action descriptor dict as read by `BrowserManager.execute`:
`action.get("action")`, `action.get("selector")`, `action.get("params")`. -/
structure ActionDescriptor where
  action : Option (List Char)
  selector : Option (List Char)
  params : Option (List (List Char × PyParam))
deriving DecidableEq

/-- How a handler module's `run` is invoked by the dispatcher: the
`scrape_and_store` special form `run(page, victims, sessions, llm, hf)`, or
`run(page, *args, **kwargs)`. -/
inductive Invocation where
  | scrape
  | withArgs (args : List (List Char)) (kwargs : List (List Char × PyParam))
deriving DecidableEq

/-- A value returned by an action handler (the handlers return booleans or
strings). -/
inductive ActResult where
  | rbool (b : Bool)
  | rstr (s : List Char)
deriving DecidableEq

/-- The behaviour of the imported action modules: name and invocation to
outcome. Import errors and handler exceptions are both `error`. -/
abbrev Handler := List Char → Invocation → Except PyErr ActResult

/-- The `self._actions` dispatch table keys (`browser_manager.py`,
lines 22-30). -/
def actionsTable : List (List Char) :=
  ["enter_text".toList, "press_key".toList, "wait".toList, "click".toList,
   "scroll_to".toList, "handle_dialog".toList, "scrape_and_store".toList]

/-- Python truthiness of an optional string. -/
def truthyOpt : Option (List Char) → Bool
  | some s => ¬ s.isEmpty
  | none => false

/-- Argument shaping of `BrowserManager.execute` (lines 68-80): `args = []`,
`kwargs = params or {}`; a wait action with a truthy selector gets
`args = [selector]` and empty kwargs; any other truthy selector gets
`args = [selector]` with the params as kwargs. -/
def dispatch_args (a : ActionDescriptor) :
    List (List Char) × List (List Char × PyParam) :=
  if a.action = some ("wait".toList) ∧ truthyOpt a.selector then
    ([(a.selector).getD []], [])
  else if truthyOpt a.selector then
    ([(a.selector).getD []], a.params.getD [])
  else
    ([], a.params.getD [])

/-- The body of the per-action `try` block (lines 86-98): the
`scrape_and_store` special case, the table lookup (`KeyError` on a missing
or unknown name), and the module call. -/
def action_call (handler : Handler) (a : ActionDescriptor) :
    Except PyErr ActResult :=
  match a.action with
  | none => .error ("KeyError: None".toList)
  | some name =>
    if name = ("scrape_and_store".toList) then handler name .scrape
    else if name ∈ actionsTable then
      handler name (.withArgs (dispatch_args a).1 (dispatch_args a).2)
    else .error ("KeyError".toList)

/-- Per-action result: the `except` clause (lines 99-102) turns a raised
exception into an appended `None`. -/
def dispatch1 (handler : Handler) (a : ActionDescriptor) : Option ActResult :=
  match action_call handler a with
  | .ok r => some r
  | .error _ => none

/-- An element of the planned action list: a descriptor dict or any other
Python value (on which `action.get` raises `AttributeError`). -/
inductive PyObj where
  | dict (a : ActionDescriptor)
  | nondict
deriving DecidableEq

/-- Embedding of `BrowserManager.execute` (lines 65-104): one pass over the
action list appending one result per action; `action.get` on a non-dict
raises outside the `try` and aborts the whole call. -/
def execute (handler : Handler) : List PyObj → Except PyErr (List (Option ActResult))
  | [] => .ok []
  | .nondict :: _ => .error ("AttributeError: get".toList)
  | .dict a :: rest =>
    match execute handler rest with
    | .ok results => .ok (dispatch1 handler a :: results)
    | .error e => .error e

/-- External collaborators of the wait action (`src/actions/wait.py`): the
two `query_selector` calls, `wait_for_selector`, `inner_html` and
`wait_for_function` (the last two keyed by element handle, initial HTML and
timeout). -/
structure WaitEnv where
  query1 : Option Nat
  wait_for_selector : Nat → Except PyErr Unit
  query2 : Option Nat
  inner_html : Nat → Except PyErr (List Char)
  wait_for_function : List Char → Nat → Except PyErr Unit

/-- Element lookup of `wait.run` (lines 4-9): query, wait for the selector
(raising on driver timeout), re-query, and raise if still absent. -/
def wait_get_element (env : WaitEnv) (selector : List Char) (timeout : Nat) :
    Except PyErr Nat :=
  match env.query1 with
  | some el => .ok el
  | none =>
    match env.wait_for_selector timeout with
    | .error e => .error e
    | .ok _ =>
      match env.query2 with
      | some el => .ok el
      | none => .error ("No element found for selector: ".toList ++ selector)

/-- Embedding of `wait.run` (`src/actions/wait.py`, lines 3-17; the Python
signature defaults `timeout` to 20000): find the element, read its initial
HTML, wait for the content to change, return `True`; every failure raises. -/
def wait_run (env : WaitEnv) (selector : List Char) (timeout : Nat) :
    Except PyErr Bool :=
  match wait_get_element env selector timeout with
  | .error e => .error e
  | .ok el =>
    match env.inner_html el with
    | .error e => .error e
    | .ok initial_html =>
      match env.wait_for_function initial_html timeout with
      | .error e => .error e
      | .ok _ => .ok true

/-- Probe handler reporting whether its invocation carried a timeout
keyword argument. -/
def hC8 : Handler := fun _ inv =>
  .ok (.rbool (match inv with
    | .withArgs _ kwargs => kwargs.any (fun kv => kv.1 == ("timeout".toList))
    | .scrape => false))

/-- A wait descriptor whose params carry a caller-supplied timeout. -/
def waitDescC8 : ActionDescriptor :=
  ⟨some ("wait".toList), some ("#content".toList), some [("timeout".toList, .pint 5)]⟩

/-- A value produced by `ast.literal_eval` on the plan string: a list, a
string, or anything else. -/
inductive PyVal where
  | pylist (items : List PyObj)
  | pystr (s : List Char)
  | pyother

/-- External collaborators of one `run_agent` call, step-indexed where the
loop consumes one outcome per iteration: `LLMManager(...)` construction,
`BrowserManager(...)` construction, `bm.start()`, the sense phase of step k
(lines 43-56: `bm.sense`, `page.content`, `clean_text`, the session lookup
and `pm.build_context`), the planning call `pm.plan` of step k (line 62,
always a string from `get_llm_plan`), `ast.literal_eval`, the action-handler
behaviour, and `json.dumps` used for history keys. -/
structure AgentEnv where
  llm_init : Except PyErr Unit
  bm_init : Except PyErr Unit
  bm_start : Except PyErr Unit
  sense : Nat → Except PyErr Unit
  plan : Nat → Except PyErr (List Char)
  literal_eval : List Char → Except PyErr PyVal
  handler : Handler
  keyFn : PyObj → List Char

/-- Embedding of `map_actions_to_results`
(`src/utils/map_actions_to_results.py`): `ValueError` on a strict length
mismatch, otherwise the keyed zip (`action_key_str` is the `json.dumps`
oracle `keyFn`). -/
def map_actions_to_results (keyFn : PyObj → List Char) (actions : List PyObj)
    (results : List (Option ActResult)) (strict : Bool) :
    Except PyErr (List (List Char × Option ActResult)) :=
  if strict ∧ actions.length ≠ results.length then
    .error ("ValueError: Length mismatch".toList)
  else .ok ((actions.zip results).map (fun p => (keyFn p.1, p.2)))

/-- The inner `try` block of the agent loop (`src/agent.py`, lines 71-81):
`ast.literal_eval` on the (always string) plan, `actions = plan if
isinstance(plan, list) else []`, `bm.execute`, strict result mapping, and
the pure in-process history append. -/
def exec_block (env : AgentEnv) (plan : List Char) : Except PyErr Unit :=
  match env.literal_eval plan with
  | .error e => .error e
  | .ok v =>
    match execute env.handler (match v with | .pylist items => items | _ => []) with
    | .error e => .error e
    | .ok results =>
      match map_actions_to_results env.keyFn
          (match v with | .pylist items => items | _ => []) results true with
      | .error e => .error e
      | .ok _ => .ok ()

/-- How the while loop ends: normal exit (break or step budget) with the
final step counter, or an exception escaping to the outer handler. -/
inductive LoopExit where
  | complete (steps : Nat)
  | failed (e : PyErr) (steps : Nat)

/-- The `while steps < max_steps` loop of `run_agent` (lines 36-84):
increment the counter, sense, plan; a falsy plan breaks (normal exit); an
exception in the inner block prints and breaks (normal exit); otherwise
iterate. Exceptions from sensing or planning escape to the outer handler. -/
def agent_loop (env : AgentEnv) (max_steps steps : Nat) : LoopExit :=
  if steps < max_steps then
    match env.sense (steps + 1) with
    | .error e => .failed e (steps + 1)
    | .ok _ =>
      match env.plan (steps + 1) with
      | .error e => .failed e (steps + 1)
      | .ok p =>
        if p = [] then .complete (steps + 1)
        else
          match exec_block env p with
          | .error _ => .complete (steps + 1)
          | .ok _ => agent_loop env max_steps (steps + 1)
  else .complete steps
termination_by max_steps - steps

/-- The dict `{"status": ..., "steps_ran": ...}` returned on normal
completion (line 88). -/
structure RunResult where
  status : List Char
  steps_ran : Nat

/-- Observable outcome of `run_agent`: the returned value — `ok (some r)` a
record, `ok none` Python's implicit `None` from the except handler, `error`
an uncaught exception — plus whether `bm.exit()` released the browser. -/
structure RunOutcome where
  result : Except PyErr (Option RunResult)
  browser_released : Bool

/-- Embedding of `run_agent` (`src/agent.py`, lines 9-91): construct the
LLM manager and browser manager (an exception before `bm` is bound makes
the handler's own `await bm.exit()` raise `UnboundLocalError`), start the
browser (failure is caught, browser released, `None` returned), run the
loop, release the browser and return the completion record; a loop
exception is caught, the browser released, and `None` returned. -/
def run_agent (env : AgentEnv) (max_steps : Nat) : RunOutcome :=
  match env.llm_init with
  | .error _ => ⟨.error ("UnboundLocalError: bm".toList), false⟩
  | .ok _ =>
    match env.bm_init with
    | .error _ => ⟨.error ("UnboundLocalError: bm".toList), false⟩
    | .ok _ =>
      match env.bm_start with
      | .error _ => ⟨.ok none, true⟩
      | .ok _ =>
        match agent_loop env max_steps 0 with
        | .complete s => ⟨.ok (some ⟨"complete".toList, s⟩), true⟩
        | .failed _ _ => ⟨.ok none, true⟩

/-- A concrete `json.loads` oracle for witness evaluation. -/
def loadsW : List Char → Except PyErr PyJson := fun t =>
  if t = ('[' :: ("\x7b\x7d".toList ++ [']'])) then .ok (.jlist [.jdict []])
  else .error ("Expecting value".toList)

/-- Concrete environment: embedding succeeds, similarity search raises. -/
def envSearchFail : StoreEnv :=
  ⟨fun _ => .ok [(1 : ℚ)], fun _ => .error ("OperationFailure: $vectorSearch".toList),
   fun _ => .ok 7⟩

/-- A concrete entry whose company name normalises to lowercase. -/
def entryAcme : Entry := [("victimCompany".toList, "Acme Corp".toList)]

/-- Concrete environment: embedding itself raises. -/
def envEmbedFail : StoreEnv :=
  ⟨fun _ => .error ("HTTPError: model loading".toList),
   fun _ => .ok [], fun _ => .ok 9⟩

/-- Concrete environment whose best candidate scores exactly the 0.85
threshold. -/
def envDupBoundary : StoreEnv :=
  ⟨fun _ => .ok [(1 : ℚ)],
   fun _ => .ok [⟨[("victimCompany".toList, "acme corp".toList)], 85/100⟩],
   fun _ => .ok 3⟩

/-- Concrete environment whose best candidate scores 0.84, strictly below
the threshold. -/
def envBelowThreshold : StoreEnv :=
  ⟨fun _ => .ok [(1 : ℚ)],
   fun _ => .ok [⟨[("victimCompany".toList, "acme corp".toList)], 84/100⟩],
   fun _ => .ok 4⟩

/-- Concrete handler behaviour whose click action raises. -/
def handlerW : Handler := fun name _ =>
  if name = ("click".toList) then .error ("TimeoutError".toList)
  else .ok (.rbool true)

/-- A concrete three-action batch whose second action's handler raises. -/
def descW : List ActionDescriptor :=
  [⟨some ("scroll_to".toList), some ("#a".toList), none⟩,
   ⟨some ("click".toList), some ("#b".toList), none⟩,
   ⟨some ("press_key".toList), some ("#c".toList), some [("key".toList, .pstr ("Enter".toList))]⟩]

/-- Concrete wait environment in which the selector never appears and the
driver wait times out. -/
def waitEnvGone : WaitEnv :=
  ⟨none, fun _ => .error ("TimeoutError: waiting for selector".toList),
   none, fun _ => .ok [], fun _ _ => .ok ()⟩

/-- Concrete run whose step-1 planning response is the literal text of an
empty list and whose step-2 response is the empty string. -/
def envPlanEmptyList : AgentEnv :=
  ⟨.ok (), .ok (), .ok (),
   fun _ => .ok (),
   fun k => if k = 1 then .ok ("[]".toList) else .ok [],
   fun s => if s = ("[]".toList) then .ok (.pylist [])
            else .error ("ValueError: malformed node or string".toList),
   fun _ _ => .ok (.rbool true),
   fun _ => []⟩

/-- Concrete run whose planning response is unparseable prose. -/
def envGarbage : AgentEnv :=
  ⟨.ok (), .ok (), .ok (),
   fun _ => .ok (),
   fun _ => .ok ("Sorry, I cannot help with that.".toList),
   fun _ => .error ("ValueError: malformed node or string".toList),
   fun _ _ => .ok (.rbool true),
   fun _ => []⟩

/-- Concrete run whose first sense phase raises. -/
def envSenseFail : AgentEnv :=
  ⟨.ok (), .ok (), .ok (),
   fun _ => .error ("Error: Page crashed".toList),
   fun _ => .ok [],
   fun _ => .error ("ValueError: malformed node or string".toList),
   fun _ _ => .ok (.rbool true),
   fun _ => []⟩

/-- Concrete run whose LLM-manager construction raises before the browser
manager is bound. -/
def envInitFail : AgentEnv :=
  ⟨.error ("ValueError: Missing DEEPSEEK_API_KEY".toList), .ok (), .ok (),
   fun _ => .ok (),
   fun _ => .ok [],
   fun _ => .error ("ValueError: malformed node or string".toList),
   fun _ _ => .ok (.rbool true),
   fun _ => []⟩

/-- Concrete run in which every step senses, plans a nonempty parseable
plan, and executes successfully. -/
def envAllOk : AgentEnv :=
  ⟨.ok (), .ok (), .ok (),
   fun _ => .ok (),
   fun _ => .ok ("x".toList),
   fun _ => .ok (.pylist []),
   fun _ _ => .ok (.rbool true),
   fun _ => []⟩

lemma chunkFrom_eq_nil (text : List Char) (size step start : Nat)
    (h : text.length ≤ start ∨ step = 0) : chunkFrom text size step start = [] := by
  rw [chunkFrom]
  rw [dif_neg (by omega)]

lemma chunkFrom_cons (text : List Char) (size step start : Nat)
    (hstart : start < text.length) (hstep : 0 < step) (hsize : 0 < size) :
    chunkFrom text size step start =
      ((text.drop start).take size) ::
        (if text.length ≤ start + size then []
         else chunkFrom text size step (start + step)) := by
  rw [chunkFrom]
  rw [dif_pos ⟨hstart, hstep⟩]
  have hne : ((text.drop start).take size) ≠ [] := by
    simp only [ne_eq, List.take_eq_nil_iff, List.drop_eq_nil_iff]
    omega
  simp [List.isEmpty_iff, hne]

/-- The chunk list has `1 + ⌈(len - start - size) / step⌉` elements: the loop
emits one chunk per `start` offset and breaks at the first offset with
`start + size ≥ len`. -/
lemma chunkFrom_length (text : List Char) (size step : Nat)
    (hstep : 0 < step) (hss : step ≤ size) (start : Nat) (hstart : start < text.length) :
    (chunkFrom text size step start).length
      = 1 + (text.length - start - size + (step - 1)) / step := by
  have hsize : 0 < size := lt_of_lt_of_le hstep hss
  rw [chunkFrom_cons text size step start hstart hstep hsize]
  by_cases hb : text.length ≤ start + size
  · have h0 : text.length - start - size = 0 := by omega
    simp [hb, h0, Nat.div_eq_of_lt (by omega : step - 1 < step)]
  · push_neg at hb
    have hrec := chunkFrom_length text size step hstep hss (start + step) (by omega)
    rw [if_neg (by omega)]
    simp only [List.length_cons, hrec]
    set L := text.length with hL
    have hM : 1 ≤ L - start - size := by omega
    set M := L - start - size with hMdef
    have hM2 : L - (start + step) - size = M - step := by omega
    rw [hM2]
    by_cases hMs : M ≤ step
    · have h1 : M - step = 0 := by omega
      have hR : M + (step - 1) = (M - 1) + step := by omega
      rw [h1, hR, Nat.add_div_right _ hstep]
      have h2 : (0 + (step - 1)) / step = 0 := Nat.div_eq_of_lt (by omega)
      have h3 : (M - 1) / step = 0 := Nat.div_eq_of_lt (by omega)
      rw [h2, h3]
    · push_neg at hMs
      have key : M + (step - 1) = (M - step - 1) + step + step := by omega
      have key2 : M - step + (step - 1) = (M - step - 1) + step := by omega
      rw [key, key2, Nat.add_div_right _ hstep, Nat.add_div_right _ hstep,
        Nat.add_div_right _ hstep]
      omega
termination_by text.length - start
decreasing_by omega

/-- The `i`-th chunk is exactly the Python slice `text[start+i*step : start+i*step+size]`. -/
lemma chunkFrom_getElem? (text : List Char) (size step : Nat)
    (hstep : 0 < step) (hss : step ≤ size) (start : Nat) :
    ∀ i, i < (chunkFrom text size step start).length →
      (chunkFrom text size step start)[i]?
        = some ((text.drop (start + i * step)).take size) := by
  have hsize : 0 < size := lt_of_lt_of_le hstep hss
  intro i hi
  by_cases hstart : start < text.length
  · rw [chunkFrom_cons text size step start hstart hstep hsize] at hi ⊢
    match i with
    | 0 => simp
    | (j+1) =>
      simp only [List.getElem?_cons_succ]
      by_cases hb : text.length ≤ start + size
      · rw [if_pos hb] at hi
        simp at hi
      · rw [if_neg hb] at hi ⊢
        simp only [List.length_cons, Nat.add_lt_add_iff_right] at hi
        have := chunkFrom_getElem? text size step hstep hss (start + step) j hi
        rw [this]
        congr 2
        ring_nf
  · exfalso
    rw [chunkFrom_eq_nil text size step start (by omega)] at hi
    simp at hi
termination_by text.length - start
decreasing_by omega

/-- Ceiling-division bound: `a ≤ ⌈a/b⌉ * b`. -/
lemma ceil_mul_ge (a b : Nat) (hb : 0 < b) : a ≤ ((a + (b - 1)) / b) * b := by
  cases a with
  | zero => simp
  | succ a' =>
    have h1 : a' + 1 + (b - 1) = a' + b := by omega
    rw [h1, Nat.add_div_right _ hb]
    have h2 := Nat.div_add_mod' a' b
    have h3 := Nat.mod_lt a' hb
    have h4 : (a' / b + 1) * b = a' / b * b + b := by ring
    omega

/-- Every valid chunk index starts strictly inside the text. -/
lemma chunkFrom_index_lt (text : List Char) (size step : Nat)
    (hstep : 0 < step) (hss : step ≤ size) (start : Nat) (hstart : start < text.length)
    (i : Nat) (hi : i < (chunkFrom text size step start).length) :
    start + i * step < text.length := by
  rw [chunkFrom_length text size step hstep hss start hstart] at hi
  set L := text.length
  set M := L - start - size with hM
  have hiM : i ≤ (M + (step - 1)) / step := by omega
  have hmul : i * step ≤ ((M + (step - 1)) / step) * step :=
    Nat.mul_le_mul_right step hiM
  have hdiv : ((M + (step - 1)) / step) * step ≤ M + (step - 1) :=
    Nat.div_mul_le_self _ _
  by_cases hb : L ≤ start + size
  · have : M = 0 := by omega
    rw [this] at hmul
    have : (0 + (step - 1)) / step = 0 := Nat.div_eq_of_lt (by omega)
    rw [this] at hmul
    omega
  · omega

/-- Every position of the text is covered by some chunk's span. -/
lemma chunkFrom_coverage (text : List Char) (size step : Nat)
    (hstep : 0 < step) (hss : step ≤ size)
    (j : Nat) (hj : j < text.length) :
    ∃ i, i < (chunkFrom text size step 0).length ∧
      i * step ≤ j ∧ j < i * step + size := by
  have hstart : (0:Nat) < text.length := by omega
  have hlen := chunkFrom_length text size step hstep hss 0 hstart
  set L := text.length with hLdef
  set M := L - 0 - size with hM
  by_cases hcase : j / step ≤ (M + (step - 1)) / step
  · refine ⟨j / step, by omega, Nat.div_mul_le_self j step, ?_⟩
    have h1 := Nat.div_add_mod' j step
    have h2 := Nat.mod_lt j hstep
    omega
  · push_neg at hcase
    refine ⟨(M + (step - 1)) / step, by omega, ?_, ?_⟩
    · have h1 : (M + (step - 1)) / step + 1 ≤ j / step := by omega
      have h2 : ((M + (step - 1)) / step + 1) * step ≤ (j / step) * step :=
        Nat.mul_le_mul_right step h1
      have h3 : (j / step) * step ≤ j := Nat.div_mul_le_self j step
      have h4 : ((M + (step - 1)) / step + 1) * step
          = ((M + (step - 1)) / step) * step + step := by ring
      omega
    · have h5 : M ≤ ((M + (step - 1)) / step) * step := ceil_mul_ge M step hstep
      omega

/-- A non-final chunk index leaves more than `size` characters ahead of it,
so its chunk is full-length. -/
lemma chunkFrom_nonfinal_lt (text : List Char) (size step : Nat)
    (hstep : 0 < step) (hss : step ≤ size) (start : Nat) (hstart : start < text.length)
    (i : Nat) (hi : i + 1 < (chunkFrom text size step start).length) :
    start + i * step + size < text.length := by
  rw [chunkFrom_length text size step hstep hss start hstart] at hi
  set L := text.length
  set M := L - start - size with hM
  have hiM : i + 1 ≤ (M + (step - 1)) / step := by omega
  have hmul : (i + 1) * step ≤ ((M + (step - 1)) / step) * step :=
    Nat.mul_le_mul_right step hiM
  have hdiv : ((M + (step - 1)) / step) * step ≤ M + (step - 1) :=
    Nat.div_mul_le_self _ _
  have hMpos : 1 ≤ M := by
    by_contra hc
    push_neg at hc
    have hM0 : M = 0 := by omega
    rw [hM0] at hmul
    have : (0 + (step - 1)) / step = 0 := Nat.div_eq_of_lt (by omega)
    rw [this] at hmul
    have hpos : step ≤ (i + 1) * step := Nat.le_mul_of_pos_left step (by omega)
    omega
  have h1 : (i + 1) * step = i * step + step := by ring
  omega

/-- C4 (amended): for every text and every size whose derived step
`int(size * 0.9)` is at least 1, `chunk_text` returns chunks each of length at
most `size` and nonempty, the `i`-th chunk being exactly the slice of the input
starting at `i * step`, the spans covering every input position with no gap and
the final chunk truncated to what remains; the number of chunks equals
`1 + ⌈max(len - size, 0) / step⌉` for nonempty text (`0` for empty text) — not
`⌈len / step⌉` as the claim stated. -/
theorem chunk_text_spec (text : List Char) (size : Nat)
    (hstep : 1 ≤ 9 * size / 10) :
    ∃ chunks, chunk_text text size = .ok chunks ∧
      (∀ c ∈ chunks, c.length ≤ size ∧ c ≠ []) ∧
      (∀ i, i < chunks.length →
        chunks[i]? = some ((text.drop (i * (9 * size / 10))).take size)) ∧
      (∀ j, j < text.length → ∃ i, i < chunks.length ∧
        i * (9 * size / 10) ≤ j ∧ j < i * (9 * size / 10) + size) ∧
      chunks.length = (if text.length = 0 then 0
        else 1 + (text.length - size + (9 * size / 10 - 1)) / (9 * size / 10)) := by
  set step := 9 * size / 10 with hstepdef
  have hss : step ≤ size := by
    rw [hstepdef]
    calc 9 * size / 10 ≤ 9 * size / 9 := Nat.div_le_div_left (by omega) (by omega)
      _ = size := by omega
  have hstep0 : 0 < step := hstep
  refine ⟨chunkFrom text size step 0, ?_, ?_, ?_, ?_, ?_⟩
  · rw [chunk_text]
    simp only [← hstepdef]
    rw [if_neg (by omega)]
  · intro c hc
    rw [List.mem_iff_getElem?] at hc
    obtain ⟨i, hi⟩ := hc
    have hilen : i < (chunkFrom text size step 0).length := by
      by_contra hcon
      push_neg at hcon
      rw [List.getElem?_eq_none hcon] at hi
      exact Option.noConfusion hi
    rw [chunkFrom_getElem? text size step hstep0 hss 0 i hilen] at hi
    have hpos := chunkFrom_index_lt text size step hstep0 hss 0
      (by
        by_contra hc0
        push_neg at hc0
        rw [chunkFrom_eq_nil text size step 0 (by omega)] at hilen
        simp at hilen) i hilen
    obtain rfl : c = (text.drop (0 + i * step)).take size := by
      injection hi.symm
    constructor
    · simp
    · simp only [ne_eq, List.take_eq_nil_iff, List.drop_eq_nil_iff]
      omega
  · intro i hi
    rw [chunkFrom_getElem? text size step hstep0 hss 0 i hi]
    simp
  · intro j hj
    exact chunkFrom_coverage text size step hstep0 hss j hj
  · by_cases h0 : text.length = 0
    · rw [if_pos h0, chunkFrom_eq_nil text size step 0 (by omega)]
      rfl
    · rw [if_neg h0, chunkFrom_length text size step hstep0 hss 0 (by omega)]
      congr 1

/-- C4 witness: the amended specification evaluated at the concrete input
`"abcdefghij"` with size 5 (step 4, three chunks). -/
theorem chunk_text_spec_witness :
    ∃ chunks, chunk_text "abcdefghij".toList 5 = .ok chunks ∧
      (∀ c ∈ chunks, c.length ≤ 5 ∧ c ≠ []) ∧
      (∀ i, i < chunks.length →
        chunks[i]? = some (("abcdefghij".toList.drop (i * (9 * 5 / 10))).take 5)) ∧
      (∀ j, j < "abcdefghij".toList.length → ∃ i, i < chunks.length ∧
        i * (9 * 5 / 10) ≤ j ∧ j < i * (9 * 5 / 10) + 5) ∧
      chunks.length = (if "abcdefghij".toList.length = 0 then 0
        else 1 + ("abcdefghij".toList.length - 5 + (9 * 5 / 10 - 1)) / (9 * 5 / 10)) :=
  chunk_text_spec "abcdefghij".toList 5 (by decide)

/-- C4 counterexample: for the ten-character text with `size = 10`
(step `int(10*0.9) = 9`), `chunk_text` returns one single chunk, but the
claimed count `ceil(len(text) / step) = ceil(10/9)` is 2. -/
theorem chunk_text_count_counterexample :
    chunk_text "aaaaaaaaaa".toList 10 = .ok ["aaaaaaaaaa".toList] ∧
    ("aaaaaaaaaa".toList.length + (9 * 10 / 10) - 1) / (9 * 10 / 10) = 2 := by
  constructor
  · simp [chunk_text, chunkFrom]
  · decide

/-- C9: for any two consecutive chunks produced by `chunk_text` (with a
positive step), the earlier chunk has full length `size` and its last
`size - step` characters equal the first `size - step` characters of the next
chunk; only the final chunk may be shorter than `size`. -/
theorem chunk_text_overlap (text : List Char) (size : Nat)
    (hstep : 1 ≤ 9 * size / 10) (chunks : List (List Char))
    (hok : chunk_text text size = .ok chunks)
    (i : Nat) (hi : i + 1 < chunks.length) :
    ∃ ci cnext, chunks[i]? = some ci ∧ chunks[i+1]? = some cnext ∧
      ci.length = size ∧
      ci.drop (ci.length - (size - 9 * size / 10))
        = cnext.take (size - 9 * size / 10) := by
  set step := 9 * size / 10 with hstepdef
  have hss : step ≤ size := by
    rw [hstepdef]
    calc 9 * size / 10 ≤ 9 * size / 9 := Nat.div_le_div_left (by omega) (by omega)
      _ = size := by omega
  have hstep0 : 0 < step := hstep
  have hchunks : chunks = chunkFrom text size step 0 := by
    rw [chunk_text] at hok
    simp only [← hstepdef] at hok
    rw [if_neg (by omega)] at hok
    injection hok.symm
  subst hchunks
  have hstart : (0:Nat) < text.length := by
    by_contra hc
    push_neg at hc
    rw [chunkFrom_eq_nil text size step 0 (by omega)] at hi
    simp at hi
  have hfull := chunkFrom_nonfinal_lt text size step hstep0 hss 0 hstart i hi
  simp only [Nat.zero_add] at hfull
  have hget1 := chunkFrom_getElem? text size step hstep0 hss 0 i (by omega)
  have hget2 := chunkFrom_getElem? text size step hstep0 hss 0 (i+1) hi
  simp only [Nat.zero_add] at hget1 hget2
  refine ⟨_, _, hget1, hget2, ?_, ?_⟩
  · rw [List.length_take, List.length_drop]
    omega
  · have hlen : ((text.drop (i * step)).take size).length = size := by
      rw [List.length_take, List.length_drop]
      omega
    rw [hlen]
    have h1 : size - (size - step) = step := by omega
    rw [h1]
    rw [List.drop_take, List.drop_drop, List.take_take]
    have h2 : i * step + step = (i + 1) * step := by ring
    have h3 : min (size - step) size = size - step := by omega
    rw [h2, h3]

/-- C9 witness: the overlap invariant evaluated on `"abcdefghij"` with size 5:
chunks `"abcde"`, `"efghi"`, `"ij"`; the last character of chunk 0 is the
first character of chunk 1. -/
theorem chunk_text_overlap_witness :
    ∃ ci cnext,
      (["abcde".toList, "efghi".toList, "ij".toList])[0]? = some ci ∧
      (["abcde".toList, "efghi".toList, "ij".toList])[0+1]? = some cnext ∧
      ci.length = 5 ∧
      ci.drop (ci.length - (5 - 9 * 5 / 10)) = cnext.take (5 - 9 * 5 / 10) :=
  chunk_text_overlap "abcdefghij".toList 5 (by decide)
    ["abcde".toList, "efghi".toList, "ij".toList]
    (by simp [chunk_text, chunkFrom]) 0 (by decide)

/-- C10: `int(size * 0.9) = 0` exactly when `size ≤ 1`; for such sizes
`chunk_text` raises `ValueError` (from `range` with zero step) on every input
text, the empty string included; for `size ≥ 2` it returns normally on every
text. -/
theorem chunk_text_step_zero_iff (text : List Char) (size : Nat) :
    (9 * size / 10 = 0 ↔ size ≤ 1) ∧
    (size ≤ 1 →
      chunk_text text size
        = .error ("ValueError: range() arg 3 must not be zero".toList)) ∧
    (2 ≤ size → ∃ chunks, chunk_text text size = .ok chunks) := by
  have hiff : 9 * size / 10 = 0 ↔ size ≤ 1 := by
    constructor
    · intro h
      by_contra hc
      push_neg at hc
      have : 1 ≤ 9 * size / 10 := by
        rw [Nat.le_div_iff_mul_le (by omega : 0 < 10)]
        omega
      omega
    · intro h
      interval_cases size <;> decide
  refine ⟨hiff, ?_, ?_⟩
  · intro h
    rw [chunk_text]
    rw [if_pos (hiff.mpr h)]
  · intro h
    refine ⟨chunkFrom text size (9 * size / 10) 0, ?_⟩
    rw [chunk_text]
    rw [if_neg (by
      intro hc
      have := hiff.mp hc
      omega)]

/-- C10 witness: size 1 raises `ValueError` on `"ab"` and on the empty string;
size 2 returns normally on `"ab"`. -/
theorem chunk_text_step_zero_iff_witness :
    (chunk_text "ab".toList 1
      = .error ("ValueError: range() arg 3 must not be zero".toList)) ∧
    (chunk_text "".toList 1
      = .error ("ValueError: range() arg 3 must not be zero".toList)) ∧
    (∃ chunks, chunk_text "ab".toList 2 = .ok chunks) :=
  ⟨(chunk_text_step_zero_iff "ab".toList 1).2.1 (by decide),
   (chunk_text_step_zero_iff "".toList 1).2.1 (by decide),
   (chunk_text_step_zero_iff "ab".toList 2).2.2 (by decide)⟩

lemma rfindIdx_none (c : Char) (s : List Char) (h : rfindIdx c s = none) : c ∉ s := by
  induction s with
  | nil => simp
  | cons a rest ih =>
    rw [rfindIdx] at h
    cases hr : rfindIdx c rest with
    | some i =>
      rw [hr] at h
      exact absurd h (by simp)
    | none =>
      rw [hr] at h
      by_cases hac : a = c
      · rw [if_pos hac] at h
        exact absurd h (by simp)
      · simp only [List.mem_cons, not_or]
        exact ⟨fun hc => hac hc.symm, ih hr⟩

lemma rfindIdx_some (c : Char) (s : List Char) (i : Nat) (h : rfindIdx c s = some i) :
    i < s.length ∧ (s.take (i+1)).getLast? = some c ∧ c ∉ s.drop (i+1) := by
  induction s generalizing i with
  | nil => simp [rfindIdx] at h
  | cons a rest ih =>
    rw [rfindIdx] at h
    cases hr : rfindIdx c rest with
    | some j =>
      rw [hr] at h
      have hij : i = j + 1 := by
        injection h with h'
        omega
      subst hij
      obtain ⟨h1, h2, h3⟩ := ih j hr
      refine ⟨by simp [Nat.succ_lt_succ h1], ?_, by simpa using h3⟩
      have hne : rest.take (j+1) ≠ [] := by
        simp only [ne_eq, List.take_eq_nil_iff]
        rintro (h' | h')
        · omega
        · subst h'
          simp at h1
      rw [List.take_succ_cons]
      rw [List.getLast?_eq_some_iff] at h2 ⊢
      obtain ⟨ys, hys⟩ := h2
      exact ⟨a :: ys, by rw [hys]; simp⟩
    | none =>
      rw [hr] at h
      by_cases hac : a = c
      · rw [if_pos hac] at h
        have hi0 : i = 0 := by
          injection h with h'
          omega
        subst hi0
        subst hac
        refine ⟨by simp, by simp, ?_⟩
        simpa using rfindIdx_none a rest hr
      · rw [if_neg hac] at h
        exact absurd h (by simp)

/-- C6: for every raw LLM response string, the extraction parse step never
raises (it is a total function): a string that parses as JSON is returned
unchanged except that a single JSON object is normalised into a one-element
list; on parse failure everything after the last closing brace is discarded,
a remainder that starts (after stripping) as a single object is wrapped in a
list, a remainder containing an opened-but-unclosed array gets a closing
bracket appended, and the result is re-parsed; if repair also fails (or there
is no closing brace at all) the step returns the empty list. -/
theorem parse_entries_spec (loads : List Char → Except PyErr PyJson) (s : List Char) :
    (∀ d, loads s = .ok (.jdict d) → parse_entries loads s = .jlist [.jdict d]) ∧
    (∀ v, loads s = .ok v → (∀ d, v ≠ .jdict d) → parse_entries loads s = v) ∧
    (∀ e, loads s = .error e →
      ((fix_partial_json s = none → parse_entries loads s = .jlist []) ∧
       (∀ r, fix_partial_json s = some r →
          (∀ p, loads r = .ok p → parse_entries loads s = p) ∧
          (∀ e2, loads r = .error e2 → parse_entries loads s = .jlist [])))) ∧
    (∀ r, fix_partial_json s = some r →
      ∃ t u, s = t ++ u ∧ t.getLast? = some '}' ∧ '}' ∉ u ∧
        r = (if (pyStrip t).head? = some '{' then '[' :: (t ++ [']'])
             else if t.count '[' ≠ 0 ∧ (pyStrip t).getLast? ≠ some ']' then t ++ [']']
             else t)) ∧
    (fix_partial_json s = none → '}' ∉ s) := by
  refine ⟨?_, ?_, ?_, ?_, ?_⟩
  · intro d h
    rw [parse_entries, h]
  · intro v h hnd
    rw [parse_entries, h]
    cases v <;> first | rfl | exact absurd rfl (hnd _)
  · intro e h
    constructor
    · intro hf
      rw [parse_entries, h, hf]
    · intro r hf
      constructor
      · intro p hp
        simp [parse_entries, h, hf, hp]
      · intro e2 hp
        simp [parse_entries, h, hf, hp]
  · intro r hf
    rw [fix_partial_json] at hf
    cases hidx : rfindIdx '}' s with
    | none => rw [hidx] at hf; exact absurd hf (by simp)
    | some i =>
      rw [hidx] at hf
      obtain ⟨h1, h2, h3⟩ := rfindIdx_some '}' s i hidx
      refine ⟨s.take (i+1), s.drop (i+1), (List.take_append_drop (i+1) s).symm, h2, h3, ?_⟩
      simp only at hf
      by_cases hc1 : (pyStrip (s.take (i+1))).head? = some '{'
      · rw [if_pos hc1] at hf ⊢
        injection hf.symm
      · rw [if_neg hc1] at hf ⊢
        by_cases hc2 : (s.take (i+1)).count '[' ≠ 0 ∧
            (pyStrip (s.take (i+1))).getLast? ≠ some ']'
        · rw [if_pos hc2] at hf ⊢
          injection hf.symm
        · rw [if_neg hc2] at hf ⊢
          injection hf.symm
  · intro hf
    rw [fix_partial_json] at hf
    cases hidx : rfindIdx '}' s with
    | none => exact rfindIdx_none '}' s hidx
    | some i =>
      rw [hidx] at hf
      simp only at hf
      by_cases hc1 : (pyStrip (s.take (i+1))).head? = some '{'
      · rw [if_pos hc1] at hf
        exact absurd hf (by simp)
      · rw [if_neg hc1] at hf
        by_cases hc2 : (s.take (i+1)).count '[' ≠ 0 ∧
            (pyStrip (s.take (i+1))).getLast? ≠ some ']'
        · rw [if_pos hc2] at hf
          exact absurd hf (by simp)
        · rw [if_neg hc2] at hf
          exact absurd hf (by simp)

/-- C6 witness: the response text with a trailing fragment after the object
is repaired to a wrapped list and parsed by the concrete oracle. -/
theorem parse_entries_spec_witness :
    parse_entries loadsW "\x7b\x7d x".toList = .jlist [.jdict []] :=
  (((parse_entries_spec loadsW "\x7b\x7d x".toList).2.2.1 ("Expecting value".toList)
      (by rfl)).2 ('[' :: ("\x7b\x7d".toList ++ [']'])) (by rfl)).1
    (.jlist [.jdict []]) (by rfl)

/-- C5: in `store_entry_with_embedding`, a corpus candidate whose
cosine-similarity score is greater than or equal to the threshold (in
particular, exactly equal) qualifies as a duplicate: the top-scoring existing
entry is returned with `stored = false` and nothing is inserted; when every
candidate scores strictly below the threshold, no candidate survives the
`$gte` filter and the entry is embedded, inserted, and returned as newly
stored. -/
theorem store_threshold_boundary (env : StoreEnv) (entry : Entry) (t : ℚ)
    (emb : EmbVec) (docs : List Candidate)
    (hst : pyStrip (create_searchable_text (normalize_entry entry)) ≠ [])
    (hemb : env.embed (create_searchable_text (normalize_entry entry)) = .ok emb)
    (hsearch : env.search emb = .ok docs) :
    (∀ c, docs.head? = some c → t ≤ c.score →
      store_entry_with_embedding env entry t
        = (.ok ⟨false, .found c, some c.score⟩, [])) ∧
    ((∀ c ∈ docs, c.score < t) → ∀ id,
      env.insert ⟨normalize_entry entry, some emb,
        some (create_searchable_text (normalize_entry entry))⟩ = .ok id →
      store_entry_with_embedding env entry t
        = (.ok ⟨true, .created (normalize_entry entry)
              (some (create_searchable_text (normalize_entry entry))) id, none⟩,
           [⟨normalize_entry entry, some emb,
             some (create_searchable_text (normalize_entry entry))⟩])) := by
  constructor
  · intro c hhead hscore
    cases docs with
    | nil => simp at hhead
    | cons c0 rest =>
      simp only [List.head?_cons, Option.some.injEq] at hhead
      subst hhead
      have hvs : vector_search env emb 3 t
          = c0 :: ((rest.take 2).filter (fun x => t ≤ x.score)).take 2 := by
        rw [vector_search, hsearch]
        simp only [List.take_succ_cons, List.filter_cons]
        rw [if_pos (by simpa using hscore)]
        simp [List.take_succ_cons]
      have hfse : find_similar_entries env (normalize_entry entry) t 3
          = .ok (c0 :: ((rest.take 2).filter (fun x => t ≤ x.score)).take 2) := by
        rw [find_similar_entries, if_neg hst, hemb]
        exact congrArg Except.ok hvs
      simp only [store_entry_with_embedding, hfse]
  · intro hall id hins
    have hvs : vector_search env emb 3 t = [] := by
      rw [vector_search, hsearch]
      have hfil : (docs.take 3).filter (fun c => t ≤ c.score) = [] := by
        rw [List.filter_eq_nil_iff]
        intro c hc
        have hlt := hall c (List.mem_of_mem_take hc)
        simp only [decide_eq_true_eq]
        exact not_le.mpr hlt
      show ((docs.take 3).filter (fun c => t ≤ c.score)).take 3 = []
      rw [hfil]
      rfl
    have hfse : find_similar_entries env (normalize_entry entry) t 3 = .ok [] := by
      rw [find_similar_entries, if_neg hst, hemb]
      exact congrArg Except.ok hvs
    simp only [store_entry_with_embedding, hfse, hemb, hins]

/-- C5 witness: with threshold 0.85, a candidate scoring exactly 0.85 is
returned as a duplicate without insertion, and a candidate scoring 0.84
leads to a fresh embedded insert. -/
theorem store_threshold_boundary_witness :
    store_entry_with_embedding envDupBoundary entryAcme (85/100)
      = (.ok ⟨false, .found ⟨[("victimCompany".toList, "acme corp".toList)], 85/100⟩,
            some (85/100)⟩, []) ∧
    store_entry_with_embedding envBelowThreshold entryAcme (85/100)
      = (.ok ⟨true, .created (normalize_entry entryAcme)
            (some (create_searchable_text (normalize_entry entryAcme))) 4, none⟩,
         [⟨normalize_entry entryAcme, some [(1 : ℚ)],
           some (create_searchable_text (normalize_entry entryAcme))⟩]) := by
  constructor
  · exact (store_threshold_boundary envDupBoundary entryAcme (85/100) [(1:ℚ)]
      [⟨[("victimCompany".toList, "acme corp".toList)], 85/100⟩]
      (by decide) rfl rfl).1
      ⟨[("victimCompany".toList, "acme corp".toList)], 85/100⟩ rfl (by norm_num)
  · exact (store_threshold_boundary envBelowThreshold entryAcme (85/100) [(1:ℚ)]
      [⟨[("victimCompany".toList, "acme corp".toList)], 84/100⟩]
      (by decide) rfl rfl).2
      (by intro c hc; simp at hc; subst hc; norm_num) 4 rfl

/-- C7 (amended): if the embedding call raises, the raw normalised entry is
inserted unembedded through the except-fallback and returned as stored; if
the similarity search (`aggregate`) raises, the exception is absorbed inside
`vector_search` (which returns no candidates), so the entry is inserted
through the normal path, embedded rather than raw; in both cases the call
returns `stored = true` and the error does not propagate, provided the
insert itself succeeds. -/
theorem store_failure_fallback (env : StoreEnv) (entry : Entry) (t : ℚ) :
    (∀ e, env.embed (create_searchable_text (normalize_entry entry)) = .error e →
      ∀ id, env.insert ⟨normalize_entry entry, none, none⟩ = .ok id →
        store_entry_with_embedding env entry t
          = (.ok ⟨true, .created (normalize_entry entry) none id, none⟩,
             [⟨normalize_entry entry, none, none⟩])) ∧
    (∀ emb e, pyStrip (create_searchable_text (normalize_entry entry)) ≠ [] →
      env.embed (create_searchable_text (normalize_entry entry)) = .ok emb →
      env.search emb = .error e →
      ∀ id, env.insert ⟨normalize_entry entry, some emb,
          some (create_searchable_text (normalize_entry entry))⟩ = .ok id →
        store_entry_with_embedding env entry t
          = (.ok ⟨true, .created (normalize_entry entry)
                (some (create_searchable_text (normalize_entry entry))) id, none⟩,
             [⟨normalize_entry entry, some emb,
               some (create_searchable_text (normalize_entry entry))⟩])) := by
  constructor
  · intro e hemb id hins
    by_cases hst : pyStrip (create_searchable_text (normalize_entry entry)) = []
    · have hfse : find_similar_entries env (normalize_entry entry) t 3 = .ok [] := by
        rw [find_similar_entries, if_pos hst]
      simp only [store_entry_with_embedding, hfse, hemb, store_fallback, hins]
    · have hfse : find_similar_entries env (normalize_entry entry) t 3 = .error e := by
        rw [find_similar_entries, if_neg hst, hemb]
      simp only [store_entry_with_embedding, hfse, store_fallback, hins]
  · intro emb e hst hemb hsearch id hins
    have hvs : vector_search env emb 3 t = [] := by
      rw [vector_search, hsearch]
    have hfse : find_similar_entries env (normalize_entry entry) t 3 = .ok [] := by
      rw [find_similar_entries, if_neg hst, hemb]
      exact congrArg Except.ok hvs
    simp only [store_entry_with_embedding, hfse, hemb, hins]

/-- C7 counterexample: with an environment whose similarity search raises
(`envSearchFail`) and an embedding that succeeds, the inserted corpus
document carries the embedding and searchable text: it is not the raw
unembedded entry the claim promises for a similarity-search failure. -/
theorem store_search_failure_counterexample :
    store_entry_with_embedding envSearchFail entryAcme (85/100)
      = (.ok ⟨true, .created [("victimCompany".toList, "acme corp".toList)]
            (some ("acme corp".toList)) 7, none⟩,
         [⟨[("victimCompany".toList, "acme corp".toList)], some [(1 : ℚ)],
           some ("acme corp".toList)⟩]) ∧
    (store_entry_with_embedding envSearchFail entryAcme (85/100)).2
      ≠ [⟨normalize_entry entryAcme, none, none⟩] := by
  constructor
  · rfl
  · decide

/-- C7 witness: the amended fallback clause applied to a concrete
environment whose embedding call raises: the raw normalised entry is
inserted unembedded and returned as stored. -/
theorem store_failure_fallback_witness :
    store_entry_with_embedding envEmbedFail entryAcme (85/100)
      = (.ok ⟨true, .created [("victimCompany".toList, "acme corp".toList)] none 9, none⟩,
         [⟨[("victimCompany".toList, "acme corp".toList)], none, none⟩]) := by
  have h := (store_failure_fallback envEmbedFail entryAcme (85/100)).1
    ("HTTPError: model loading".toList) rfl 9 rfl
  simpa using h

/-- C3: for every handler behaviour and every sequence of action
descriptors, `BrowserManager.execute` returns exactly one result per input
descriptor, in input order; the `i`-th result is exactly the outcome of the
`i`-th action's own dispatch — `none` when its handler raises, `some r` when
it returns `r` — independent of every other action, so a failing action
never short-circuits the batch. -/
theorem execute_per_action (handler : Handler) (descriptors : List ActionDescriptor) :
    ∃ results, execute handler (descriptors.map PyObj.dict) = .ok results ∧
      results.length = descriptors.length ∧
      (∀ (i : Nat) (d : ActionDescriptor), descriptors[i]? = some d →
        results[i]? = some (dispatch1 handler d)) ∧
      (∀ a e, action_call handler a = .error e → dispatch1 handler a = none) ∧
      (∀ a r, action_call handler a = .ok r → dispatch1 handler a = some r) := by
  induction descriptors with
  | nil =>
    refine ⟨[], rfl, rfl, ?_, ?_, ?_⟩
    · intro i d h
      simp at h
    · intro a e h
      rw [dispatch1, h]
    · intro a r h
      rw [dispatch1, h]
  | cons d0 rest ih =>
    obtain ⟨rs, h1, h2, h3, _, _⟩ := ih
    refine ⟨dispatch1 handler d0 :: rs, ?_, by simpa using h2, ?_, ?_, ?_⟩
    · simp only [List.map_cons, execute, h1]
    · intro i d h
      match i with
      | 0 =>
        simp only [List.getElem?_cons_zero, Option.some.injEq] at h
        subst h
        simp
      | (j+1) =>
        simp only [List.getElem?_cons_succ] at h ⊢
        exact h3 j d h
    · intro a e h
      rw [dispatch1, h]
    · intro a r h
      rw [dispatch1, h]

/-- C3 witness: a three-action batch whose second handler raises yields
three results with the second `none` and the first and third reflecting
their own successful outcomes. -/
theorem execute_per_action_witness :
    ∃ results, execute handlerW (descW.map PyObj.dict) = .ok results ∧
      results[1]? = some (dispatch1 handlerW ⟨some ("click".toList), some ("#b".toList), none⟩) ∧
      results = [some (.rbool true), none, some (.rbool true)] := by
  obtain ⟨rs, h1, h2, h3, h4, h5⟩ := execute_per_action handlerW descW
  refine ⟨rs, h1, h3 1 _ (by rfl), ?_⟩
  have hconc : execute handlerW (descW.map PyObj.dict)
      = .ok [some (.rbool true), none, some (.rbool true)] := by rfl
  rw [h1] at hconc
  injection hconc

/-- C8 counterexample: a wait descriptor carrying `params = {timeout: 5}` is
dispatched with empty keyword arguments — the caller-supplied timeout never
reaches the handler (a probe handler reporting whether it received a timeout
kwarg reports it did not), refuting "a caller-supplied optional timeout
parameter is accepted and honored". -/
theorem wait_timeout_dropped_counterexample :
    dispatch_args waitDescC8 = (["#content".toList], []) ∧
    dispatch1 hC8 waitDescC8 = some (.rbool false) ∧
    waitDescC8.params = some [("timeout".toList, .pint 5)] := by
  refine ⟨rfl, rfl, rfl⟩

/-- C8 (amended): when the dispatcher executes a descriptor whose action is
the wait type with a truthy selector, the selector is passed to the handler
as the single positional argument and the keyword arguments are emptied, so
any caller-supplied params — a `timeout` included — are discarded and the
wait handler runs with its own default timeout (20000 in `wait.py`); the
wait handler itself never returns `false`: it raises when the selector never
appears, when no element is found afterwards, or when the content never
changes within the timeout it was given. -/
theorem wait_dispatch_spec (handler : Handler) (a : ActionDescriptor)
    (sel : List Char) (hname : a.action = some ("wait".toList))
    (hsel : a.selector = some sel) (hne : sel ≠ []) :
    (dispatch_args a = ([sel], []) ∧
     dispatch1 handler a
       = (match handler ("wait".toList) (.withArgs [sel] []) with
          | .ok r => some r
          | .error _ => none)) ∧
    (∀ env t b, wait_run env sel t = .ok b → b = true) ∧
    (∀ env t e, env.query1 = none → env.wait_for_selector t = .error e →
       wait_run env sel t = .error e) ∧
    (∀ env t el ini e, env.query1 = some el → env.inner_html el = .ok ini →
       env.wait_for_function ini t = .error e → wait_run env sel t = .error e) := by
  have hargs : dispatch_args a = ([sel], []) := by
    rw [dispatch_args, if_pos]
    · rw [hsel]
      rfl
    · refine ⟨hname, ?_⟩
      rw [hsel]
      simpa [truthyOpt] using hne
  refine ⟨⟨hargs, ?_⟩, ?_, ?_, ?_⟩
  · simp only [dispatch1, action_call, hname]
    rw [if_neg (by decide : ¬ ("wait".toList = "scrape_and_store".toList))]
    rw [if_pos (by decide : ("wait".toList ∈ actionsTable))]
    rw [hargs]
  · intro env t b h
    rw [wait_run] at h
    split at h
    · exact absurd h (by simp)
    · split at h
      · exact absurd h (by simp)
      · split at h
        · exact absurd h (by simp)
        · injection h with h'
          exact h'.symm
  · intro env t e h1 h2
    simp [wait_run, wait_get_element, h1, h2]
  · intro env t el ini e h1 h2 h3
    simp [wait_run, wait_get_element, h1, h2, h3]

/-- C8 witness: a concrete wait descriptor carrying a params timeout is
dispatched with empty kwargs, and a concrete wait environment whose selector
never appears makes the wait raise the driver timeout error. -/
theorem wait_dispatch_spec_witness :
    dispatch_args ⟨some ("wait".toList), some ("#x".toList),
        some [("timeout".toList, .pint 9)]⟩ = (["#x".toList], []) ∧
    wait_run waitEnvGone ("#x".toList) 3
      = .error ("TimeoutError: waiting for selector".toList) :=
  ⟨(wait_dispatch_spec hC8 ⟨some ("wait".toList), some ("#x".toList),
      some [("timeout".toList, .pint 9)]⟩ ("#x".toList) rfl rfl (by decide)).1.1,
   (wait_dispatch_spec hC8 ⟨some ("wait".toList), some ("#x".toList),
      some [("timeout".toList, .pint 9)]⟩ ("#x".toList) rfl rfl (by decide)).2.2.1
     waitEnvGone 3 ("TimeoutError: waiting for selector".toList) rfl rfl⟩

lemma agent_loop_all_ok (env : AgentEnv) (ms : Nat)
    (hall : ∀ k, 1 ≤ k → k ≤ ms → env.sense k = .ok () ∧
       ∃ p, env.plan k = .ok p ∧ p ≠ [] ∧ exec_block env p = .ok ())
    (s : Nat) (hs : s ≤ ms) : agent_loop env ms s = .complete ms := by
  by_cases h : s < ms
  · obtain ⟨hsense, p, hp, hne, hexec⟩ := hall (s+1) (by omega) (by omega)
    rw [agent_loop, if_pos h]
    simp only [hsense, hp, hne, hexec, if_neg hne]
    exact agent_loop_all_ok env ms hall (s+1) (by omega)
  · have hsm : s = ms := by omega
    rw [agent_loop, if_neg (by omega), hsm]
termination_by ms - s

/-- C1 (amended): a planning response that is empty after cleaning (the
falsy string) or unparseable garbage (a non-empty string rejected by
`ast.literal_eval`) ends the agent loop at the current step count and
`run_agent` returns its normal completion result; but the literal response
text of an empty list, `"[]"`, is a truthy string that parses to an empty
action list, so the loop executes nothing and continues to the next
iteration instead of stopping. -/
theorem plan_termination (env : AgentEnv) (ms s : Nat) (hs : s < ms)
    (hsense : env.sense (s + 1) = .ok ()) :
    (env.plan (s + 1) = .ok [] → agent_loop env ms s = .complete (s + 1)) ∧
    (∀ p e, env.plan (s + 1) = .ok p → p ≠ [] → env.literal_eval p = .error e →
       agent_loop env ms s = .complete (s + 1)) ∧
    (∀ p, env.plan (s + 1) = .ok p → p ≠ [] →
       env.literal_eval p = .ok (.pylist []) →
       agent_loop env ms s = agent_loop env ms (s + 1)) ∧
    (s = 0 → ∀ p, env.plan 1 = .ok p →
       (p = [] ∨ ∃ e, env.literal_eval p = .error e) →
       env.llm_init = .ok () → env.bm_init = .ok () → env.bm_start = .ok () →
       0 < ms → run_agent env ms = ⟨.ok (some ⟨"complete".toList, 1⟩), true⟩) := by
  refine ⟨?_, ?_, ?_, ?_⟩
  · intro hp
    rw [agent_loop, if_pos hs]
    simp [hsense, hp]
  · intro p e hp hne hev
    rw [agent_loop, if_pos hs]
    simp [hsense, hp, hne, exec_block, hev]
  · intro p hp hne hev
    rw [agent_loop, if_pos hs]
    simp [hsense, hp, hne, exec_block, hev, execute, map_actions_to_results]
  · intro hs0 p hp hcase hllm hbm hbs hms
    subst hs0
    have hloop : agent_loop env ms 0 = .complete 1 := by
      rcases hcase with hq | ⟨e, he⟩
      · subst hq
        rw [agent_loop, if_pos hms]
        simp [hsense, hp]
      · by_cases hq : p = []
        · subst hq
          rw [agent_loop, if_pos hms]
          simp [hsense, hp]
        · rw [agent_loop, if_pos hms]
          simp [hsense, hp, hq, exec_block, he]
    rw [run_agent, hllm, hbm, hbs, hloop]

/-- C1 counterexample: in a run whose step-1 planning response is the
two-character string of an empty list (and whose step-2 response is empty),
the loop does not end at step 1: `run_agent` completes with 2 steps ran, not
1, refuting the claim that a response of an empty list ends the loop at the
current step count. -/
theorem plan_empty_list_counterexample :
    envPlanEmptyList.plan 1 = .ok ("[]".toList) ∧
    run_agent envPlanEmptyList 2 = ⟨.ok (some ⟨"complete".toList, 2⟩), true⟩ ∧
    run_agent envPlanEmptyList 2 ≠ ⟨.ok (some ⟨"complete".toList, 1⟩), true⟩ := by
  refine ⟨rfl, ?_, ?_⟩
  · simp [run_agent, agent_loop, envPlanEmptyList, exec_block, execute,
      map_actions_to_results]
  · simp [run_agent, agent_loop, envPlanEmptyList, exec_block, execute,
      map_actions_to_results]

/-- C1 witness: a concrete environment whose planning response is
unparseable prose ends the loop at step 1 with the normal completion
result. -/
theorem plan_termination_witness :
    agent_loop envGarbage 20 0 = .complete 1 ∧
    run_agent envGarbage 20 = ⟨.ok (some ⟨"complete".toList, 1⟩), true⟩ :=
  ⟨(plan_termination envGarbage 20 0 (by omega) rfl).2.1
     ("Sorry, I cannot help with that.".toList)
     ("ValueError: malformed node or string".toList) rfl (by decide) rfl,
   (plan_termination envGarbage 20 0 (by omega) rfl).2.2.2 rfl
     ("Sorry, I cannot help with that.".toList) rfl
     (Or.inr ⟨("ValueError: malformed node or string".toList), rfl⟩)
     rfl rfl rfl (by omega)⟩

/-- C2 (amended): every record `run_agent` returns has status complete with
`steps_ran` the number of loop iterations executed, and the browser is
released on that path; when a loop step or the browser start fails with an
exception, the browser is released but the run returns no record at all
(Python returns None from the except handler) instead of a status-error
record; and when LLM-manager or browser-manager construction fails, the
except handler itself raises (`bm` is unbound), so no record is returned and
nothing is released. A run in which every step senses, plans a nonempty
parseable plan, and executes successfully completes with exactly
`max_steps` iterations. -/
theorem run_agent_exit_paths (env : AgentEnv) (ms : Nat) :
    (∀ r, (run_agent env ms).result = .ok (some r) →
       r.status = "complete".toList ∧ (run_agent env ms).browser_released = true) ∧
    ((run_agent env ms).result = .ok none →
       (run_agent env ms).browser_released = true) ∧
    (∀ e, (run_agent env ms).result = .error e →
       (run_agent env ms).browser_released = false ∧
       ((∃ e1, env.llm_init = .error e1) ∨ (∃ e2, env.bm_init = .error e2))) ∧
    ((∀ k, 1 ≤ k → k ≤ ms → env.sense k = .ok () ∧
        ∃ p, env.plan k = .ok p ∧ p ≠ [] ∧ exec_block env p = .ok ()) →
      env.llm_init = .ok () → env.bm_init = .ok () → env.bm_start = .ok () →
      run_agent env ms = ⟨.ok (some ⟨"complete".toList, ms⟩), true⟩) := by
  refine ⟨?_, ?_, ?_, ?_⟩
  · intro r hr
    cases hllm : env.llm_init with
    | error e1 => simp [run_agent, hllm] at hr
    | ok u1 =>
      cases hbm : env.bm_init with
      | error e2 => simp [run_agent, hllm, hbm] at hr
      | ok u2 =>
        cases hbs : env.bm_start with
        | error e3 => simp [run_agent, hllm, hbm, hbs] at hr
        | ok u3 =>
          cases hloop : agent_loop env ms 0 with
          | complete s =>
            have hres : run_agent env ms
                = ⟨.ok (some ⟨"complete".toList, s⟩), true⟩ := by
              simp [run_agent, hllm, hbm, hbs, hloop]
            rw [hres] at hr ⊢
            simp only [Except.ok.injEq, Option.some.injEq] at hr
            subst hr
            exact ⟨rfl, rfl⟩
          | failed e s => simp [run_agent, hllm, hbm, hbs, hloop] at hr
  · intro hr
    cases hllm : env.llm_init with
    | error e1 => simp [run_agent, hllm] at hr
    | ok u1 =>
      cases hbm : env.bm_init with
      | error e2 => simp [run_agent, hllm, hbm] at hr
      | ok u2 =>
        cases hbs : env.bm_start with
        | error e3 => simp [run_agent, hllm, hbm, hbs]
        | ok u3 =>
          cases hloop : agent_loop env ms 0 with
          | complete s => simp [run_agent, hllm, hbm, hbs, hloop]
          | failed e s => simp [run_agent, hllm, hbm, hbs, hloop]
  · intro e hr
    cases hllm : env.llm_init with
    | error e1 => exact ⟨by simp [run_agent, hllm], Or.inl ⟨e1, rfl⟩⟩
    | ok u1 =>
      cases hbm : env.bm_init with
      | error e2 => exact ⟨by simp [run_agent, hllm, hbm], Or.inr ⟨e2, rfl⟩⟩
      | ok u2 =>
        cases hbs : env.bm_start with
        | error e3 => simp [run_agent, hllm, hbm, hbs] at hr
        | ok u3 =>
          cases hloop : agent_loop env ms 0 with
          | complete s => simp [run_agent, hllm, hbm, hbs, hloop] at hr
          | failed e4 s => simp [run_agent, hllm, hbm, hbs, hloop] at hr
  · intro hall hllm hbm hbs
    rw [run_agent, hllm, hbm, hbs, agent_loop_all_ok env ms hall 0 (by omega)]

/-- C2 counterexample: a run whose first sense raises returns None (not a
record with status error, refuting the claimed result shape), and a run
whose LLM-manager construction raises escapes with `UnboundLocalError` from
the except handler, with the browser never released — refuting guaranteed
release before the error is reported on every exit path. -/
theorem run_agent_error_counterexample :
    run_agent envSenseFail 20 = ⟨.ok none, true⟩ ∧
    run_agent envInitFail 20 = ⟨.error ("UnboundLocalError: bm".toList), false⟩ := by
  constructor
  · simp [run_agent, agent_loop, envSenseFail]
  · rfl

/-- C2 witness: a concrete all-successful environment runs to the step
budget and returns the completion record with 3 steps ran. -/
theorem run_agent_exit_paths_witness :
    run_agent envAllOk 3 = ⟨.ok (some ⟨"complete".toList, 3⟩), true⟩ :=
  (run_agent_exit_paths envAllOk 3).2.2.2
    (fun _ _ _ => ⟨rfl, ⟨"x".toList, rfl, by decide, rfl⟩⟩) rfl rfl rfl

end RansomAgent
